import Mathlib

/-
Verification development for the `benching` micro-benchmark harness
(`src/mod.ts`, later variant: the module exporting `bench` and the
concurrent `runBenchmarks` executor).

JavaScript numbers are embedded as `JSNum`: either a finite value
(a rational, collapsing the float grid and the signed zero), `NaN`,
or a signed infinity.  JavaScript truthiness on numbers (`!x`) is
`jsTruthy`; `Date`/`performance` timestamps, clock arithmetic and
`Math.floor` are given explicit models below.
-/

set_option autoImplicit false

namespace Benching

/-- Model of a JavaScript number: finite rational, NaN, or a signed
infinity.  The float grid and the signed zero are collapsed. -/
inductive JSNum where
| num (q : ℚ)
| nan
| inf
| ninf
deriving Repr, DecidableEq

/-- JavaScript truthiness of a number: `0` and `NaN` are falsy,
every other number (infinities included) is truthy. -/
def jsTruthy : JSNum → Bool
| .num q => !(q == 0)
| .nan => false
| .inf => true
| .ninf => true

/-- The JavaScript comparison `x >= 1` (false on NaN). -/
def jsGe1 : JSNum → Bool
| .num q => 1 ≤ q
| .nan => false
| .inf => true
| .ninf => false

/-- The JavaScript comparison `a > b` (false whenever NaN is involved). -/
def jsGt : JSNum → JSNum → Bool
| .nan, _ => false
| _, .nan => false
| .num x, .num y => y < x
| .inf, .inf => false
| .inf, _ => true
| .ninf, _ => false
| .num _, .inf => false
| .num _, .ninf => true

/-- `Math.floor` on a JavaScript number; only reached on finite
arguments in this development (`verifyOr1Run` guards the call). -/
def jsFloor : JSNum → ℤ
| .num q => ⌊q⌋
| _ => 0

/-- JavaScript subtraction `a - b`. -/
def jsSub : JSNum → JSNum → JSNum
| .nan, _ => .nan
| _, .nan => .nan
| .num x, .num y => .num (x - y)
| .inf, .inf => .nan
| .inf, _ => .inf
| .ninf, .ninf => .nan
| .ninf, _ => .ninf
| .num _, .inf => .ninf
| .num _, .ninf => .inf

/-- JavaScript addition `a + b`. -/
def jsAdd : JSNum → JSNum → JSNum
| .nan, _ => .nan
| _, .nan => .nan
| .num x, .num y => .num (x + y)
| .inf, .ninf => .nan
| .ninf, .inf => .nan
| .inf, _ => .inf
| _, .inf => .inf
| .ninf, _ => .ninf
| _, .ninf => .ninf

/-- JavaScript division `a / b` (division by zero yields a signed
infinity or NaN; the signed zero is collapsed to `0`). -/
def jsDiv : JSNum → JSNum → JSNum
| .nan, _ => .nan
| _, .nan => .nan
| .inf, .inf => .nan
| .inf, .ninf => .nan
| .ninf, .inf => .nan
| .ninf, .ninf => .nan
| .inf, .num b => if b < 0 then .ninf else .inf
| .ninf, .num b => if b < 0 then .inf else .ninf
| .num _, .inf => .num 0
| .num _, .ninf => .num 0
| .num a, .num b =>
  if b == 0 then (if a == 0 then .nan else if a < 0 then .ninf else .inf)
  else .num (a / b)

/-- Rendering of a JavaScript number in template-literal output. -/
def jsNumToString : JSNum → String
| .num q => toString q
| .nan => "NaN"
| .inf => "Infinity"
| .ninf => "-Infinity"

/-- `interface BenchmarkClock { start: number; stop: number }`. -/
structure BenchmarkClock where
  start : JSNum
  stop : JSNum
deriving Repr, DecidableEq

/-- The clock a runner allocates: `{ start: NaN, stop: NaN }`. -/
def freshClock : BenchmarkClock := ⟨.nan, .nan⟩

/-- Errors thrown by the module.  The three timer constructors stand
for the three `assertTiming` messages; `invalidDefinition` stands for
"The benchmark function must not be anonymous"; `other` models an
arbitrary exception thrown by a benchmark body. -/
inductive JsError where
| timerNotStopped
| timerNotStarted
| timerOrderViolation
| invalidDefinition
| other (msg : String)
deriving Repr, DecidableEq

/-- Effect of `createBenchmarkTimer(clock).start()` when
`performance.now()` returns `now`. -/
def timerStart (now : ℚ) (clock : BenchmarkClock) : BenchmarkClock :=
  { clock with start := .num now }

/-- Effect of `createBenchmarkTimer(clock).stop()` when
`performance.now()` returns `now`. -/
def timerStop (now : ℚ) (clock : BenchmarkClock) : BenchmarkClock :=
  { clock with stop := .num now }

/-- `assertTiming(clock)`: the three guards, in source order. -/
def assertTiming (clock : BenchmarkClock) : Except JsError Unit :=
  if !(jsTruthy clock.stop) then .error .timerNotStopped
  else if !(jsTruthy clock.start) then .error .timerNotStarted
  else if jsGt clock.start clock.stop then .error .timerOrderViolation
  else .ok ()

/-- A benchmark body, seen through its effect: it receives the clock
its timer is bound to, and either finishes (leaving the clock as its
timer calls wrote it) or throws. -/
def BenchmarkFunction : Type := BenchmarkClock → Except JsError BenchmarkClock

/-- A registered definition: `{ func, name, runs }` with `runs`
already normalized by `bench`. -/
structure BenchmarkDefinition where
  name : String
  runs : ℤ
  func : BenchmarkFunction

/-- `verifyOr1Run(runs)`: keep `Math.floor(runs)` for a truthy,
non-`Infinity` value at least `1`; otherwise default to `1`. -/
def verifyOr1Run (runs : Option JSNum) : ℤ :=
  match runs with
  | none => 1
  | some r => if jsTruthy r && jsGe1 r && !(r == .inf) then jsFloor r else 1

/-- `noColor` environment flag; this development fixes it to `true`
so report lines carry no escape sequences. -/
def noColor : Bool := true

/-- `red(text)`. -/
def red (text : String) : String :=
  if noColor then text else "\x1b[31m" ++ text ++ "\x1b[0m"

/-- `blue(text)`. -/
def blue (text : String) : String :=
  if noColor then text else "\x1b[34m" ++ text ++ "\x1b[0m"

/-- `average(nums)`: `reduce`-sum divided by length. -/
def average (nums : List JSNum) : JSNum :=
  jsDiv (nums.foldl jsAdd (.num 0)) (.num (nums.length : ℚ))

/-- `report(name, timings)`: the per-benchmark success line. -/
def report (name : String) (timings : List JSNum) : String :=
  if timings.length == 1 then
    "benchmark " ++ name ++ " ... " ++
      blue (jsNumToString (timings.headD (.num 0)) ++ "ms")
  else
    "benchmark " ++ name ++ " ... " ++
      blue (jsNumToString (average timings) ++ "ms") ++
      " (average over " ++ toString timings.length ++ " runs)"

/-- `fail(name)`: the per-benchmark failure line. -/
def fail (name : String) : String :=
  "benchmark " ++ name ++ " ... " ++ red "failed"

/-- `unresolve(name)`: the defensive line for an entry the failure
sweep cannot classify. -/
def unresolve (name : String) : String :=
  "benchmark " ++ name ++ " ... unresolved"

/-- Input to `bench`: a bare named function or a full definition
(whose `runs` field is optional and still unnormalized). -/
inductive BenchInput where
| fn (name : String) (func : BenchmarkFunction)
| defn (name : String) (runs : Option JSNum) (func : BenchmarkFunction)

/-- The `name` property of either shape of `bench` argument. -/
def benchName : BenchInput → String
| .fn name _ => name
| .defn name _ _ => name

/-- `bench(benchmark)`: reject an anonymous argument, otherwise push
one normalized definition onto the `candidates` registry.  The
registry is threaded explicitly; a thrown error leaves it unchanged. -/
def bench (benchmark : BenchInput) (candidates : List BenchmarkDefinition) :
    Except JsError (List BenchmarkDefinition) :=
  if benchName benchmark = "" then .error .invalidDefinition
  else
    match benchmark with
    | .fn name func => .ok (candidates ++ [⟨name, 1, func⟩])
    | .defn name runs func => .ok (candidates ++ [⟨name, verifyOr1Run runs, func⟩])

/-- `createRunner(func)()`: run the body on a fresh clock, validate
the clock, and return the measured duration; a rejection of the body
or of the validation propagates. -/
def createRunner (func : BenchmarkFunction) : Except JsError JSNum :=
  match func freshClock with
  | .error e => .error e
  | .ok clock =>
    match assertTiming clock with
    | .error e => .error e
    | .ok _ => .ok (jsSub clock.stop clock.start)

/-- `initRunners(func, runs)`: the `runs` runner invocations of one
definition (identical in this deterministic model). -/
def initRunners (func : BenchmarkFunction) (runs : ℕ) : List (Except JsError JSNum) :=
  List.replicate runs (createRunner func)

/-- `Promise.all`: all fulfilled yields the list of values, otherwise
the first rejection wins. -/
def promiseAll {ε α : Type} : List (Except ε α) → Except ε (List α)
| [] => .ok []
| .error e :: _ => .error e
| .ok a :: rest => (promiseAll rest).map (fun l => a :: l)

/-- `interface BenchmarkResult`: one entry of the result table.
`timings: null` is `none`; the optional `failed` field starts out
absent, i.e. `false`. -/
structure BenchmarkResult where
  index : ℕ
  timings : Option (List JSNum)
  printed : Bool
  failed : Bool
deriving Repr, DecidableEq

/-- `interface BenchmarkResults`: a plain object keyed by benchmark
name, embedded as an insertion-ordered association list, the order
`Object.entries`/`Object.values` iterate in. -/
abbrev BenchmarkResults : Type := List (String × BenchmarkResult)

/-- Property read `results[name]` on a plain object. -/
def jsObjGet (results : BenchmarkResults) (name : String) : Option BenchmarkResult :=
  (results.find? (fun kv => kv.1 == name)).map (fun kv => kv.2)

/-- Property write `results[name] = r` on a plain object: overwrite
in place when the key exists, append otherwise. -/
def jsObjSet (results : BenchmarkResults) (name : String) (r : BenchmarkResult) :
    BenchmarkResults :=
  if results.any (fun kv => kv.1 == name) then
    results.map (fun kv => if kv.1 == name then (kv.1, r) else kv)
  else results ++ [(name, r)]

/-- Field update `results[name].f = v` on a plain object: a no-op
when the key is absent (the executor always created the entry). -/
def jsObjModify (results : BenchmarkResults) (name : String)
    (f : BenchmarkResult → BenchmarkResult) : BenchmarkResults :=
  results.map (fun kv => if kv.1 == name then (kv.1, f kv.2) else kv)

/-- `interface BenchmarkMeta`. -/
structure BenchmarkMeta where
  filtered : ℕ
  measured : ℕ
  failed : Bool
deriving Repr, DecidableEq

/-- `createBenchmarkResults(benchmarks)`: one entry per selected
definition, keyed by name (a duplicate name overwrites), with the
position in the selected list as `index`. -/
def createBenchmarkResults (benchmarks : List BenchmarkDefinition) : BenchmarkResults :=
  benchmarks.enum.foldl
    (fun acc cur => jsObjSet acc cur.2.name ⟨cur.1, none, false, false⟩) []

/-- `logPendingResults(results)`: report every entry that has timings
and was not printed yet, in table order. -/
def logPendingResults (results : BenchmarkResults) : List String :=
  (results.filter (fun kv => kv.2.timings.isSome && !kv.2.printed)).map
    (fun kv => report kv.1 (kv.2.timings.getD []))

/-- `logFailingResults(results)`: the failure sweep, one line per
entry of the table, in table order. -/
def logFailingResults (results : BenchmarkResults) : List String :=
  results.map (fun kv =>
    if !kv.2.printed && !kv.2.failed && kv.2.timings.isSome then
      report kv.1 (kv.2.timings.getD [])
    else if !kv.2.printed && kv.2.failed then fail kv.1
    else unresolve kv.1)

/-- How the `Promise.all` over one benchmark's runners settles: with
the list of its runner durations, or with the first rejection. -/
inductive RunnerOutcome where
| ok (timings : List JSNum)
| err

/-- Whether a settlement is a fulfilment. -/
def RunnerOutcome.isOk : RunnerOutcome → Bool
| .ok _ => true
| .err => false

/-- Executor state threaded through the completion handlers: the
result table, the meta counters, and the lines printed so far. -/
structure ExecState where
  results : BenchmarkResults
  meta : BenchmarkMeta
  output : List String

/-- `createBenchmark({name, runs, func}, results, meta)` past its
await: the continuation that runs when this benchmark's runner tasks
have settled.  On fulfilment it stores the timings, reads the entry's
index, checks whether the entry at `index - 1` already has timings,
and prints at once when the index is `0` or that check succeeds; on
rejection it marks the entry and the whole run failed and rethrows
(the rethrow surfaces through `Promise.all` in `runBenchmarksModel`). -/
def createBenchmark (st : ExecState) (name : String) (outcome : RunnerOutcome) :
    ExecState :=
  match outcome with
  | .err =>
    ⟨jsObjModify st.results name (fun r => { r with failed := true }),
     { st.meta with failed := true }, st.output⟩
  | .ok ts =>
    let results := jsObjModify st.results name (fun r => { r with timings := some ts })
    let curIndex : ℕ := ((jsObjGet results name).map (fun r => r.index)).getD 0
    let prevResolved := results.any
      (fun kv => kv.2.timings.isSome && ((kv.2.index : ℤ) == (curIndex : ℤ) - 1))
    if curIndex == 0 || prevResolved then
      let results2 := jsObjModify results name (fun r => { r with printed := true })
      let line := report name
        (((jsObjGet results name).map (fun r => r.timings.getD [])).getD [])
      ⟨results2, { st.meta with measured := st.meta.measured + 1 },
       st.output ++ [line]⟩
    else
      ⟨results, { st.meta with measured := st.meta.measured + 1 }, st.output⟩

/-- The trace of per-benchmark lines `runBenchmarks` prints for the
selected definitions `benchmarks`, under cooperative single-threaded
scheduling.  `schedule` is the settlement order of the per-benchmark
runner joins, each event naming the benchmark and how its runners
settled; the corresponding `createBenchmark` continuations execute in
that order.  `Promise.all` over the benchmark tasks rejects at the
first rejected task, so the `catch` branch (the failure sweep) runs
right after that event, before the remaining continuations, which
still execute afterwards (there is no cancellation) and append any
lines they print after the sweep.  Without any rejection the join
fulfils after all events and `logPendingResults` runs. -/
def runBenchmarksModel (benchmarks : List BenchmarkDefinition)
    (schedule : List (String × RunnerOutcome)) : List String :=
  let st0 : ExecState := ⟨createBenchmarkResults benchmarks, ⟨0, 0, false⟩, []⟩
  let okPrefix := schedule.takeWhile (fun ev => ev.2.isOk)
  let rest := schedule.dropWhile (fun ev => ev.2.isOk)
  let st1 := okPrefix.foldl (fun st ev => createBenchmark st ev.1 ev.2) st0
  match rest with
  | [] => st1.output ++ logPendingResults st1.results
  | failEv :: tail =>
    let st2 := createBenchmark st1 failEv.1 failEv.2
    let sweep := logFailingResults st2.results
    let st3 := tail.foldl (fun st ev => createBenchmark st ev.1 ev.2)
      { st2 with output := [] }
    st2.output ++ sweep ++ st3.output

/-!
Specification-side definitions.  `specTableFrom` is the canonical
shape of a result table over definitions with pairwise distinct
names: one entry per definition, in registration order, with the
entry fields given by functions of the index.  It is used to state
and prove the executor theorems by simulation.
-/

/-- Canonical result table for the definitions `bs`, whose first
entry carries index `off`; `t`, `p`, `f` give each index its
`timings`, `printed` and `failed` fields. -/
def specTableFrom (off : ℕ) (t : ℕ → Option (List JSNum)) (p f : ℕ → Bool) :
    List BenchmarkDefinition → BenchmarkResults
| [] => []
| b :: bs => (b.name, ⟨off, t off, p off, f off⟩) :: specTableFrom (off + 1) t p f bs

/-- Canonical result table starting at index `0`. -/
def specTable (bs : List BenchmarkDefinition) (t : ℕ → Option (List JSNum))
    (p f : ℕ → Bool) : BenchmarkResults :=
  specTableFrom 0 t p f bs

/-!
Concrete inputs used by counterexamples and witnesses.
-/

/-- A benchmark body that completes without touching its timer. -/
def idleBody : BenchmarkFunction := fun clock => .ok clock

/-- A benchmark body whose timer calls are `b.start()` at time `1`
and `b.stop()` at time `4`. -/
def timedBody : BenchmarkFunction := fun clock => .ok (timerStop 4 (timerStart 1 clock))

/-- Three selected benchmarks, in registration order `a`, `b`, `c`. -/
def c1Bs : List BenchmarkDefinition :=
  [⟨"a", 1, timedBody⟩, ⟨"b", 1, timedBody⟩, ⟨"c", 1, timedBody⟩]

/-- A completion order in which `b` settles first, then `c`, then
`a`. -/
def c1Schedule : List (String × RunnerOutcome) :=
  [("b", .ok [.num 2]), ("c", .ok [.num 3]), ("a", .ok [.num 1])]

/-- Two selected benchmarks for the C1 witness. -/
def c1WitBs : List BenchmarkDefinition := [⟨"a", 1, timedBody⟩, ⟨"b", 1, timedBody⟩]

/-- Their runner timings, in registration order. -/
def c1WitTss : List (List JSNum) := [[.num 1], [.num 2]]

/-- Two selected benchmarks: `a` succeeds, `b` fails. -/
def c2Bs : List BenchmarkDefinition := [⟨"a", 1, timedBody⟩, ⟨"b", 1, idleBody⟩]

/-- `a` settles (and prints) before `b` fails. -/
def c2Schedule : List (String × RunnerOutcome) := [("a", .ok [.num 1]), ("b", .err)]

/-- A one-entry result table whose entry was already printed. -/
def c2WitTable : BenchmarkResults := [("a", ⟨0, some [.num 1], true, false⟩)]

/-- Two selected benchmarks: `a` fails, `b` succeeds. -/
def c3Bs : List BenchmarkDefinition := [⟨"a", 1, idleBody⟩, ⟨"b", 1, timedBody⟩]

/-- `a` fails before `b` settles. -/
def c3Schedule : List (String × RunnerOutcome) := [("a", .err), ("b", .ok [.num 2])]

/-- Two selected benchmarks for the C3 witness. -/
def c3WitBs : List BenchmarkDefinition := [⟨"x", 1, idleBody⟩, ⟨"y", 1, timedBody⟩]

/-- A clock whose `stop` timestamp was recorded as `0` (a set value,
not the `NaN` initialization sentinel). -/
def zeroStopClock : BenchmarkClock := ⟨.num 1, .num 0⟩

/-- The definition `bench` appends for a given (named) argument. -/
def pushedDefinition : BenchInput → BenchmarkDefinition
| .fn name func => ⟨name, 1, func⟩
| .defn name runs func => ⟨name, verifyOr1Run runs, func⟩

/-- A registry that already holds a definition named `a`. -/
def c8Registry : List BenchmarkDefinition := [⟨"a", 1, timedBody⟩]

/-!
Theorems.
-/

theorem jsTruthy_eq_false_iff (x : JSNum) :
    jsTruthy x = false ↔ x = .nan ∨ x = .num 0 := by
  cases x <;> simp [jsTruthy]

theorem foldl_jsAdd_num (ts : List ℚ) (a : ℚ) :
    (ts.map JSNum.num).foldl jsAdd (.num a) = .num (a + ts.sum) := by
  induction ts generalizing a with
  | nil => simp
  | cons q ts ih => simp [jsAdd, ih, add_assoc]

theorem average_num (ts : List ℚ) (h : ts ≠ []) :
    average (ts.map JSNum.num) = .num (ts.sum / (ts.length : ℚ)) := by
  have hlen : ((ts.length : ℚ) == 0) = false := by
    simp [List.length_pos.mpr h, Nat.pos_iff_ne_zero.mp (List.length_pos.mpr h)]
  simp [average, foldl_jsAdd_num, jsDiv, hlen]

theorem promiseAll_replicate_ok {ε α : Type} (n : ℕ) (a : α) :
    promiseAll (List.replicate n (Except.ok a : Except ε α)) = .ok (List.replicate n a) := by
  induction n with
  | zero => rfl
  | succ n ih => simp [List.replicate_succ, promiseAll, ih, Except.map]

/-- Claim C4 (amended): every benchmark body is invoked with a Timer
bound to a fresh clock (`start = stop = NaN`) and the Runner always
validates the resulting clock with `assertTiming`; the Runner records
no timestamps of its own, so a body that completes without touching
its timer fails with `TimerNotStopped`, and any validation error on
the completed clock becomes the Runner's outcome. -/
theorem c4_runner_always_validates :
    (∀ body : BenchmarkFunction, body freshClock = .ok freshClock →
      createRunner body = .error .timerNotStopped) ∧
    (∀ (body : BenchmarkFunction) (clock : BenchmarkClock) (e : JsError),
      body freshClock = .ok clock → assertTiming clock = .error e →
      createRunner body = .error e) := by
  constructor
  · intro body h
    have hv : assertTiming freshClock = .error .timerNotStopped := rfl
    simp [createRunner, h, hv]
  · intro body clock e h he
    simp [createRunner, h, he]

/-- Claim C4, counterexample: a body that declares (and uses) no
Timer is not timed by the Runner itself; its invocation fails with
the timer-contract error `TimerNotStopped`, contradicting the claim
that such a body cannot fail with a timer-contract error and that the
Runner supplies its own timestamps with no clock validation. -/
theorem c4_counterexample : createRunner idleBody = .error .timerNotStopped := rfl

/-- Claim C4, witness for the amended theorem at the concrete body
`idleBody`. -/
theorem c4_witness : createRunner idleBody = .error JsError.timerNotStopped :=
  c4_runner_always_validates.1 idleBody rfl

/-- Claim C5: `runs` normalization in `verifyOr1Run` and `bench`:
negative, zero, below-1, `NaN` and infinite inputs become `1`; a
finite input at least `1` is floored; a missing `runs` and a bare
function body yield `1`. -/
theorem c5_runs_normalized :
    (∀ q : ℚ, 1 ≤ q → verifyOr1Run (some (.num q)) = ⌊q⌋) ∧
    (∀ q : ℚ, q < 1 → verifyOr1Run (some (.num q)) = 1) ∧
    verifyOr1Run (some .nan) = 1 ∧
    verifyOr1Run (some .inf) = 1 ∧
    verifyOr1Run (some .ninf) = 1 ∧
    verifyOr1Run none = 1 ∧
    (∀ (name : String) (func : BenchmarkFunction) (cands : List BenchmarkDefinition),
      name ≠ "" → bench (.fn name func) cands = .ok (cands ++ [⟨name, 1, func⟩])) := by
  refine ⟨?_, ?_, rfl, rfl, rfl, rfl, ?_⟩
  · intro q hq
    have h0 : ¬q = 0 := by intro h; rw [h] at hq; norm_num at hq
    simp [verifyOr1Run, jsTruthy, jsGe1, jsFloor, h0, hq]
  · intro q hq
    simp [verifyOr1Run, jsTruthy, jsGe1, jsFloor, not_le.mpr hq]
  · intro name func cands h
    simp [bench, benchName, h]

/-- Claim C5, witness at concrete inputs: `7/2` is floored to `3`,
`-2` becomes `1`, and a bare named body registers with `runs = 1`. -/
theorem c5_witness :
    verifyOr1Run (some (.num (7 / 2))) = 3 ∧
    verifyOr1Run (some (.num (-2))) = 1 ∧
    bench (.fn "f" idleBody) [] = .ok [⟨"f", 1, idleBody⟩] := by
  refine ⟨?_, c5_runs_normalized.2.1 (-2) (by norm_num), ?_⟩
  · rw [c5_runs_normalized.1 (7 / 2) (by norm_num)]
    rw [Int.floor_eq_iff]
    constructor <;> norm_num
  · have h := c5_runs_normalized.2.2.2.2.2.2 "f" idleBody [] (by simp)
    simpa using h

/-- Claim C6 (amended): `assertTiming` fails with `TimerNotStopped`
exactly when `clock.stop` is unset (`NaN`) or equal to `0`; otherwise
fails with `TimerNotStarted` exactly when `clock.start` is unset or
equal to `0`; otherwise fails with `TimerOrderViolation` exactly when
`clock.start > clock.stop`; otherwise succeeds — the three checks are
applied in that order. -/
theorem c6_assertTiming_checks (clock : BenchmarkClock) :
    (assertTiming clock = .error .timerNotStopped ↔
      (clock.stop = .nan ∨ clock.stop = .num 0)) ∧
    ((clock.stop ≠ .nan ∧ clock.stop ≠ .num 0) →
      (assertTiming clock = .error .timerNotStarted ↔
        (clock.start = .nan ∨ clock.start = .num 0))) ∧
    ((clock.stop ≠ .nan ∧ clock.stop ≠ .num 0) →
      (clock.start ≠ .nan ∧ clock.start ≠ .num 0) →
      (assertTiming clock = .error .timerOrderViolation ↔
        jsGt clock.start clock.stop = true)) ∧
    ((clock.stop ≠ .nan ∧ clock.stop ≠ .num 0) →
      (clock.start ≠ .nan ∧ clock.start ≠ .num 0) →
      jsGt clock.start clock.stop = false → assertTiming clock = .ok ()) := by
  have hstop := jsTruthy_eq_false_iff clock.stop
  have hstart := jsTruthy_eq_false_iff clock.start
  cases hs : jsTruthy clock.stop with
  | false =>
    have hd : clock.stop = .nan ∨ clock.stop = .num 0 := hstop.mp hs
    have hA : assertTiming clock = .error .timerNotStopped := by
      simp [assertTiming, hs]
    refine ⟨by simp [hA, hd], ?_, ?_, ?_⟩
    · rintro ⟨h1, h2⟩
      rcases hd with h | h <;> simp_all
    · rintro ⟨h1, h2⟩
      rcases hd with h | h <;> simp_all
    · rintro ⟨h1, h2⟩
      rcases hd with h | h <;> simp_all
  | true =>
    have hd : ¬(clock.stop = .nan ∨ clock.stop = .num 0) := by
      intro h
      rw [hstop.mpr h] at hs
      cases hs
    cases hst : jsTruthy clock.start with
    | false =>
      have hd2 : clock.start = .nan ∨ clock.start = .num 0 := hstart.mp hst
      have hA : assertTiming clock = .error .timerNotStarted := by
        simp [assertTiming, hs, hst]
      refine ⟨by simp [hA, hd], fun _ => by simp [hA, hd2], ?_, ?_⟩
      · rintro h1 ⟨h2, h3⟩
        rcases hd2 with h | h <;> simp_all
      · rintro h1 ⟨h2, h3⟩
        rcases hd2 with h | h <;> simp_all
    | true =>
      have hd2 : ¬(clock.start = .nan ∨ clock.start = .num 0) := by
        intro h
        rw [hstart.mpr h] at hst
        cases hst
      cases hgt : jsGt clock.start clock.stop with
      | true =>
        have hA : assertTiming clock = .error .timerOrderViolation := by
          simp [assertTiming, hs, hst, hgt]
        exact ⟨by simp [hA, hd], fun _ => by simp [hA, hd2],
          fun _ _ => by simp [hA], fun _ _ h => absurd h (by simp)⟩
      | false =>
        have hA : assertTiming clock = .ok () := by
          simp [assertTiming, hs, hst, hgt]
        exact ⟨by simp [hA, hd], fun _ => by simp [hA, hd2],
          fun _ _ => by simp [hA, hgt], fun _ _ _ => hA⟩

/-- Claim C6, counterexample: on a clock whose `stop` timestamp is
the set value `0` (not the `NaN` unset sentinel), validation fails
with `TimerNotStopped` although `clock.stop` is not unset — so
failing with `TimerNotStopped` exactly on an unset `clock.stop` does
not hold. -/
theorem c6_counterexample :
    assertTiming zeroStopClock = .error .timerNotStopped ∧
    zeroStopClock.stop ≠ freshClock.stop := by
  exact ⟨rfl, by simp [zeroStopClock, freshClock]⟩

/-- Claim C6, witness for the amended theorem at a concrete clock
with `start = 3 > stop = 2`. -/
theorem c6_witness :
    assertTiming ⟨.num 3, .num 2⟩ = .error .timerOrderViolation :=
  ((c6_assertTiming_checks ⟨.num 3, .num 2⟩).2.2.1
    (by simp) (by simp)).mpr (by simp [jsGt]; norm_num)

/-- Claim C7: a successful single-run benchmark reports exactly the
duration `clock.stop - clock.start` of its one invocation, runner
joins deliver exactly `runs` timing values, and a multi-run report
line shows the arithmetic mean (sum divided by count) of the
timings. -/
theorem c7_report_lines :
    (∀ (name : String) (d : ℚ),
      report name [.num d] =
        "benchmark " ++ name ++ " ... " ++ toString d ++ "ms") ∧
    (∀ (name : String) (ts : List ℚ), 2 ≤ ts.length →
      (ts.map JSNum.num).length = ts.length ∧
      average (ts.map JSNum.num) = .num (ts.sum / (ts.length : ℚ)) ∧
      report name (ts.map JSNum.num) =
        "benchmark " ++ name ++ " ... " ++ toString (ts.sum / (ts.length : ℚ)) ++
          "ms" ++ " (average over " ++ toString ts.length ++ " runs)") ∧
    (∀ (body : BenchmarkFunction) (runs : ℕ), (initRunners body runs).length = runs) ∧
    (∀ (body : BenchmarkFunction) (clock : BenchmarkClock),
      body freshClock = .ok clock → assertTiming clock = .ok () →
      createRunner body = .ok (jsSub clock.stop clock.start)) ∧
    (∀ (body : BenchmarkFunction) (runs : ℕ) (d : JSNum),
      createRunner body = .ok d →
      promiseAll (initRunners body runs) = .ok (List.replicate runs d)) := by
  refine ⟨?_, ?_, ?_, ?_, ?_⟩
  · intro name d
    simp [report, blue, noColor, jsNumToString, String.append_assoc]
  · intro name ts h2
    have hne : ts ≠ [] := by
      intro h
      rw [h] at h2
      simp at h2
    have hne1 : ts.length ≠ 1 := by omega
    refine ⟨by simp, average_num ts hne, ?_⟩
    simp [report, blue, noColor, jsNumToString, average_num ts hne,
      String.append_assoc, hne1]
  · intro body runs
    simp [initRunners]
  · intro body clock h hv
    simp [createRunner, h, hv]
  · intro body runs d h
    simp [initRunners, h, promiseAll_replicate_ok]

/-- Claim C7, witness: the runner duration of `timedBody` is
`4 - 1 = 3`, three runners deliver three timings, and the mean of
`[1, 2, 6]` is reported over `3` runs. -/
theorem c7_witness :
    report "x" [.num 3] = "benchmark " ++ "x" ++ " ... " ++ toString (3 : ℚ) ++ "ms" ∧
    createRunner timedBody = .ok (jsSub (.num 4) (.num 1)) ∧
    promiseAll (initRunners timedBody 3) = .ok (List.replicate 3 (jsSub (.num 4) (.num 1))) ∧
    report "x" ([(1 : ℚ), 2, 6].map JSNum.num) =
      "benchmark " ++ "x" ++ " ... " ++ toString (((1 : ℚ) + (2 + (6 + 0))) / (3 : ℚ)) ++
        "ms" ++ " (average over " ++ toString (3 : ℕ) ++ " runs)" := by
  refine ⟨c7_report_lines.1 "x" 3, ?_, ?_, ?_⟩
  · exact c7_report_lines.2.2.2.1 timedBody ⟨.num 1, .num 4⟩ rfl rfl
  · exact c7_report_lines.2.2.2.2 timedBody 3 (jsSub (.num 4) (.num 1))
      (c7_report_lines.2.2.2.1 timedBody ⟨.num 1, .num 4⟩ rfl rfl)
  · exact (c7_report_lines.2.1 "x" [1, 2, 6] (by norm_num)).2.2

/-- Claim C8: `bench` rejects an empty/unset name with
`InvalidDefinition` before touching the registry, and for a non-empty
name appends exactly one definition (carrying that name) to the end
of the registry, with no deduplication by name. -/
theorem c8_bench_name_check (input : BenchInput) (cands : List BenchmarkDefinition) :
    (benchName input = "" → bench input cands = .error .invalidDefinition) ∧
    (benchName input ≠ "" →
      bench input cands = .ok (cands ++ [pushedDefinition input]) ∧
      (pushedDefinition input).name = benchName input) := by
  constructor
  · intro h
    simp [bench, h]
  · intro h
    cases input with
    | fn name func =>
      refine ⟨?_, rfl⟩
      simp only [benchName] at h
      simp [bench, pushedDefinition, benchName, h]
    | defn name runs func =>
      refine ⟨?_, rfl⟩
      simp only [benchName] at h
      simp [bench, pushedDefinition, benchName, h]

/-- Claim C8, witness: an anonymous definition is rejected with the
registry untouched, and a named body is appended to a registry that
already holds a definition of the same name. -/
theorem c8_witness :
    bench (.defn "" (some (.num 3)) idleBody) [] = .error JsError.invalidDefinition ∧
    bench (.fn "a" idleBody) c8Registry =
      .ok (c8Registry ++ [pushedDefinition (.fn "a" idleBody)]) := by
  exact ⟨(c8_bench_name_check (.defn "" (some (.num 3)) idleBody) []).1 rfl,
    ((c8_bench_name_check (.fn "a" idleBody) c8Registry).2 (by simp [benchName])).1⟩

/-- Claim C10: `assertTiming` treats a recorded timestamp `0` as if
the Timer method had never been called: a clock with `stop = 0` fails
with `TimerNotStopped` whatever its `start`, a clock with `start = 0`
and nonzero finite `stop` fails with `TimerNotStarted`, and the clock
produced by actual `start()`/`stop()` calls at time `0` fails with
`TimerNotStopped`. -/
theorem c10_zero_treated_as_unset :
    (∀ st : JSNum, assertTiming ⟨st, .num 0⟩ = .error .timerNotStopped) ∧
    (∀ q : ℚ, q ≠ 0 → assertTiming ⟨.num 0, .num q⟩ = .error .timerNotStarted) ∧
    assertTiming (timerStop 0 (timerStart 0 freshClock)) = .error .timerNotStopped := by
  refine ⟨fun st => by simp [assertTiming, jsTruthy], ?_, by rfl⟩
  intro q hq
  simp [assertTiming, jsTruthy, hq]

/-- Claim C10, witness at a concrete clock `start = 0`, `stop = 5`:
both timestamps are recorded, yet validation reports the start call
missing. -/
theorem c10_witness :
    assertTiming ⟨.num 0, .num 5⟩ = .error JsError.timerNotStarted :=
  c10_zero_treated_as_unset.2.1 5 (by norm_num)

/-- Claim C2 (amended): across both sweeps, an entry printed during
incremental reporting is never printed again as a report or failure
line — the pending sweep ignores printed entries entirely, and the
failure sweep emits the defensive "unresolved" line (not a report or
failure line) for every already-printed entry. -/
theorem c2_sweeps_on_printed_entries (results : BenchmarkResults) (i : ℕ)
    (h : i < results.length) :
    (results[i].2.printed = true →
      (logFailingResults results)[i]? = some (unresolve results[i].1)) ∧
    logPendingResults results =
      logPendingResults (results.filter (fun kv => !kv.2.printed)) := by
  constructor
  · intro hp
    rw [logFailingResults, List.getElem?_map, List.getElem?_eq_getElem h]
    simp [hp]
  · rw [logPendingResults, logPendingResults, List.filter_filter]
    have heq : results.filter (fun kv => kv.2.timings.isSome && !kv.2.printed) =
        results.filter
          (fun kv => (kv.2.timings.isSome && !kv.2.printed) && !kv.2.printed) := by
      apply List.filter_congr
      intro kv _
      cases hkv : kv.2.printed <;> simp [hkv]
    rw [heq]

/-- Claim C2, counterexample: with `a` succeeding and printing before
`b` fails, the failure sweep prints a second line (the "unresolved"
line) for the already-printed entry `a`, so two lines are printed for
one ResultEntry. -/
theorem c2_counterexample :
    runBenchmarksModel c2Bs c2Schedule =
      ["benchmark a ... 1ms", "benchmark a ... unresolved", "benchmark b ... failed"] ∧
    "benchmark a ... 1ms" ∈ runBenchmarksModel c2Bs c2Schedule ∧
    "benchmark a ... unresolved" ∈ runBenchmarksModel c2Bs c2Schedule := by
  refine ⟨by decide, by decide, by decide⟩

/-- Claim C2, witness for the amended theorem on a concrete table
with one printed entry. -/
theorem c2_witness :
    (logFailingResults c2WitTable)[0]? = some (unresolve "a") ∧
    logPendingResults c2WitTable =
      logPendingResults (c2WitTable.filter (fun kv => !kv.2.printed)) := by
  have h := c2_sweeps_on_printed_entries c2WitTable 0 (by simp [c2WitTable])
  exact ⟨h.1 rfl, h.2⟩

theorem jsObjGet_cons (x : String × BenchmarkResult) (rs : BenchmarkResults)
    (name : String) :
    jsObjGet (x :: rs) name = if x.1 == name then some x.2 else jsObjGet rs name := by
  by_cases hx : (x.1 == name) = true <;> simp [jsObjGet, List.find?, hx]

theorem jsObjGet_map_replace (rs : BenchmarkResults) (k : String) (v : BenchmarkResult)
    (name : String) :
    jsObjGet (rs.map (fun kv => if kv.1 == k then (kv.1, v) else kv)) name =
      if name = k then (jsObjGet rs k).map (fun _ => v) else jsObjGet rs name := by
  induction rs with
  | nil => simp [jsObjGet]
  | cons x rs ih =>
    simp only [List.map_cons]
    by_cases hk : x.1 = k
    · have hxk : (x.1 == k) = true := beq_iff_eq.mpr hk
      by_cases hn : name = k
      · have hxn : (x.1 == name) = true := beq_iff_eq.mpr (hk.trans hn.symm)
        simp [jsObjGet_cons, hxk, hxn, hn]
      · have hxn : (x.1 == name) = false :=
          beq_eq_false_iff_ne.mpr (fun hcon => hn ((hcon.symm.trans hk)))
        simp only [hxk, if_true, jsObjGet_cons, hxn, Bool.false_eq_true, if_false]
        rw [ih, if_neg hn, if_neg hn]
    · have hxk : (x.1 == k) = false := beq_eq_false_iff_ne.mpr hk
      simp only [hxk, Bool.false_eq_true, if_false]
      by_cases hxname : x.1 = name
      · have hxn : (x.1 == name) = true := beq_iff_eq.mpr hxname
        have hnk : ¬name = k := fun hcon => hk (hxname.trans hcon)
        simp [jsObjGet_cons, hxn, hnk]
      · have hxn : (x.1 == name) = false := beq_eq_false_iff_ne.mpr hxname
        by_cases hnk : name = k
        · subst hnk
          simp only [jsObjGet_cons, hxn, Bool.false_eq_true, if_false, hxk]
          rw [ih]
          simp
        · simp only [jsObjGet_cons, hxn, Bool.false_eq_true, if_false]
          rw [ih, if_neg hnk, if_neg hnk]

theorem jsObjGet_jsObjSet (rs : BenchmarkResults) (k : String) (v : BenchmarkResult)
    (name : String) :
    jsObjGet (jsObjSet rs k v) name = if name = k then some v else jsObjGet rs name := by
  unfold jsObjSet
  by_cases hmem : rs.any (fun kv => kv.1 == k) = true
  · rw [if_pos hmem, jsObjGet_map_replace]
    by_cases hn : name = k
    · have hsome : ∃ r, jsObjGet rs k = some r := by
        rcases List.any_eq_true.mp hmem with ⟨x, hx, hxk⟩
        unfold jsObjGet
        rcases hfind : rs.find? (fun kv => kv.1 == k) with _ | r
        · rw [List.find?_eq_none] at hfind
          exact absurd hxk (hfind x hx)
        · exact ⟨r.2, by simp [hfind]⟩
      obtain ⟨r, hr⟩ := hsome
      simp [hn, hr]
    · simp [hn]
  · rw [if_neg hmem]
    have hnone : rs.find? (fun kv => kv.1 == k) = none := by
      rw [List.find?_eq_none]
      intro x hx hxk
      exact hmem (List.any_eq_true.mpr ⟨x, hx, hxk⟩)
    by_cases hn : name = k
    · subst hn
      simp [jsObjGet, List.find?_append, hnone, List.find?]
    · simp only [jsObjGet, List.find?_append]
      have hkn : (k == name) = false := beq_eq_false_iff_ne.mpr (fun hcon => hn hcon.symm)
      have hsingle : List.find? (fun kv => kv.1 == name) [(k, v)] = none := by
        simp [List.find?, hkn]
      simp [hsingle, hn]

theorem length_jsObjSet (rs : BenchmarkResults) (k : String) (v : BenchmarkResult) :
    (jsObjSet rs k v).length =
      if rs.any (fun kv => kv.1 == k) then rs.length else rs.length + 1 := by
  unfold jsObjSet
  split <;> simp

theorem createBenchmarkResults_append (bs : List BenchmarkDefinition)
    (b : BenchmarkDefinition) :
    createBenchmarkResults (bs ++ [b]) =
      jsObjSet (createBenchmarkResults bs) b.name ⟨bs.length, none, false, false⟩ := by
  unfold createBenchmarkResults
  rw [List.enum_append, List.foldl_append]
  simp [List.enumFrom]

theorem keys_any_createBenchmarkResults (bs : List BenchmarkDefinition) :
    ∀ name : String,
      (createBenchmarkResults bs).any (fun kv => kv.1 == name) =
        (bs.map (fun b => b.name)).any (fun s => s == name) := by
  induction bs using List.reverseRecOn with
  | nil => intro name; rfl
  | append_singleton bs b ih =>
    intro name
    rw [createBenchmarkResults_append]
    unfold jsObjSet
    split
    · rw [List.any_map]
      have : ((fun kv : String × BenchmarkResult => kv.1 == name) ∘
          (fun kv => if kv.1 == b.name then (kv.1, ⟨bs.length, none, false, false⟩) else kv)) =
          (fun kv : String × BenchmarkResult => kv.1 == name) := by
        funext kv
        by_cases hkv : (kv.1 == b.name) = true <;> simp [Function.comp, hkv]
      rw [this, ih name]
      rename_i hmem
      by_cases hb : name = b.name
      · subst hb
        rw [ih b.name] at hmem
        simp [hmem]
      · have : (b.name == name) = false := by
          simp
          intro hcon
          exact hb hcon.symm
        simp [this]
    · rw [List.any_append, ih]
      simp

theorem toFinset_card_name_append (bs : List BenchmarkDefinition)
    (b : BenchmarkDefinition) :
    ((bs ++ [b]).map (fun d => d.name)).toFinset.card =
      if (bs.map (fun d => d.name)).any (fun s => s == b.name) then
        (bs.map (fun d => d.name)).toFinset.card
      else (bs.map (fun d => d.name)).toFinset.card + 1 := by
  rw [List.map_append, List.toFinset_append]
  have hsing : ((List.map (fun d => d.name) [b]).toFinset : Finset String) = {b.name} := by
    simp
  rw [hsing]
  split
  · rename_i hmem
    have hb : b.name ∈ (bs.map (fun d => d.name)).toFinset := by
      rcases List.any_eq_true.mp hmem with ⟨s, hs, hsb⟩
      rw [List.mem_toFinset]
      have : s = b.name := by simpa using hsb
      rw [← this]
      exact hs
    rw [Finset.union_eq_left.mpr (Finset.singleton_subset_iff.mpr hb)]
  · rename_i hmem
    have hb : b.name ∉ (bs.map (fun d => d.name)).toFinset := by
      intro hcon
      apply hmem
      rw [List.mem_toFinset] at hcon
      exact List.any_eq_true.mpr ⟨b.name, hcon, by simp⟩
    rw [Finset.union_comm, ← Finset.insert_eq]
    exact Finset.card_insert_of_not_mem hb

/-- Claim C9: the executor's result table is keyed by benchmark name:
looking a name up yields the entry of the last selected definition
with that name (the later index overwrites the earlier), and the
number of entries equals the number of distinct selected names, not
the number of selected definitions. -/
theorem c9_results_keyed_by_name (bs : List BenchmarkDefinition) :
    (∀ name : String,
      jsObjGet (createBenchmarkResults bs) name =
        (bs.enum.reverse.find? (fun cur => cur.2.name == name)).map
          (fun cur => ⟨cur.1, none, false, false⟩)) ∧
    (createBenchmarkResults bs).length = (bs.map (fun b => b.name)).toFinset.card := by
  induction bs using List.reverseRecOn with
  | nil => exact ⟨fun name => rfl, by simp [createBenchmarkResults]⟩
  | append_singleton bs b ih =>
    have hrev : (bs ++ [b]).enum.reverse = (bs.length, b) :: bs.enum.reverse := by
      rw [List.enum_append]
      simp [List.enumFrom]
    constructor
    · intro name
      rw [createBenchmarkResults_append, jsObjGet_jsObjSet, hrev]
      by_cases hn : name = b.name
      · subst hn
        rw [if_pos rfl, List.find?_cons_of_pos _ (by simp)]
        rfl
      · rw [if_neg hn, List.find?_cons_of_neg, ih.1 name]
        simp only [Bool.not_eq_true]
        simp
        intro hcon
        exact hn hcon.symm
    · rw [createBenchmarkResults_append, length_jsObjSet,
        keys_any_createBenchmarkResults, toFinset_card_name_append]
      split <;> rw [ih.2]

theorem specTableFrom_congr (bs : List BenchmarkDefinition) (off : ℕ)
    (t t' : ℕ → Option (List JSNum)) (p p' f f' : ℕ → Bool)
    (h : ∀ i, off ≤ i → i < off + bs.length → t i = t' i ∧ p i = p' i ∧ f i = f' i) :
    specTableFrom off t p f bs = specTableFrom off t' p' f' bs := by
  induction bs generalizing off with
  | nil => rfl
  | cons b bs ih =>
    simp only [specTableFrom]
    have hoff := h off (le_refl off) (by simp)
    rw [hoff.1, hoff.2.1, hoff.2.2]
    rw [ih (off + 1) (fun i h1 h2 => h i (by omega) (by simp at h2 ⊢; omega))]

theorem mem_key_specTableFrom (bs : List BenchmarkDefinition) (off : ℕ)
    (t : ℕ → Option (List JSNum)) (p f : ℕ → Bool) (kv : String × BenchmarkResult)
    (h : kv ∈ specTableFrom off t p f bs) : kv.1 ∈ bs.map (fun b => b.name) := by
  induction bs generalizing off with
  | nil => cases h
  | cons b bs ih =>
    simp only [specTableFrom, List.mem_cons] at h
    rcases h with h | h
    · simp [h]
    · simp only [List.map_cons, List.mem_cons]
      exact Or.inr (ih (off + 1) h)

theorem jsObjModify_no_key (rs : BenchmarkResults) (name : String)
    (g : BenchmarkResult → BenchmarkResult) (h : ∀ kv ∈ rs, kv.1 ≠ name) :
    jsObjModify rs name g = rs := by
  unfold jsObjModify
  rw [List.map_congr_left]
  · exact List.map_id rs
  · intro kv hkv
    have : (kv.1 == name) = false := beq_eq_false_iff_ne.mpr (h kv hkv)
    simp [this]

theorem nodup_head_names (b : BenchmarkDefinition) (bs : List BenchmarkDefinition)
    (hnd : ((b :: bs).map (fun d => d.name)).Nodup) :
    (∀ x ∈ bs, ¬x.name = b.name) ∧ (bs.map (fun d => d.name)).Nodup := by
  simpa using hnd

theorem jsObjGet_specTableFrom (bs : List BenchmarkDefinition)
    (hnd : (bs.map (fun b => b.name)).Nodup) (off : ℕ)
    (t : ℕ → Option (List JSNum)) (p f : ℕ → Bool) (k : ℕ) (hk : k < bs.length) :
    jsObjGet (specTableFrom off t p f bs) bs[k].name =
      some ⟨off + k, t (off + k), p (off + k), f (off + k)⟩ := by
  induction bs generalizing off k with
  | nil => cases hk
  | cons b bs ih =>
    obtain ⟨hbn, hnd2⟩ := nodup_head_names b bs hnd
    cases k with
    | zero =>
      simp only [specTableFrom, List.getElem_cons_zero, jsObjGet_cons]
      simp
    | succ k =>
      have hk2 : k < bs.length := by simpa using hk
      have hne : (b.name == bs[k].name) = false :=
        beq_eq_false_iff_ne.mpr (fun hcon => hbn bs[k] (bs.getElem_mem hk2) hcon.symm)
      simp only [specTableFrom, List.getElem_cons_succ, jsObjGet_cons, hne,
        Bool.false_eq_true, if_false]
      rw [ih hnd2 (off + 1) k hk2]
      have harith : off + 1 + k = off + (k + 1) := by omega
      rw [harith]

theorem jsObjModify_specTableFrom (bs : List BenchmarkDefinition)
    (hnd : (bs.map (fun b => b.name)).Nodup) (off : ℕ)
    (t t' : ℕ → Option (List JSNum)) (p p' f f' : ℕ → Bool)
    (g : BenchmarkResult → BenchmarkResult) (k : ℕ) (hk : k < bs.length)
    (hg : g ⟨off + k, t (off + k), p (off + k), f (off + k)⟩ =
      ⟨off + k, t' (off + k), p' (off + k), f' (off + k)⟩)
    (hoth : ∀ i, i ≠ off + k → t' i = t i ∧ p' i = p i ∧ f' i = f i) :
    jsObjModify (specTableFrom off t p f bs) bs[k].name g =
      specTableFrom off t' p' f' bs := by
  induction bs generalizing off k with
  | nil => cases hk
  | cons b bs ih =>
    obtain ⟨hbn, hnd2⟩ := nodup_head_names b bs hnd
    cases k with
    | zero =>
      simp only [specTableFrom, List.getElem_cons_zero, jsObjModify, List.map_cons,
        beq_self_eq_true, if_true]
      rw [show off + 0 = off from rfl] at hg
      rw [hg]
      congr 1
      rw [show (List.map (fun kv => if kv.1 == b.name then (kv.1, g kv.2) else kv)
          (specTableFrom (off + 1) t p f bs)) =
          jsObjModify (specTableFrom (off + 1) t p f bs) b.name g from rfl]
      rw [jsObjModify_no_key]
      · apply specTableFrom_congr
        intro i h1 h2
        have hi := hoth i (by omega)
        exact ⟨hi.1.symm, hi.2.1.symm, hi.2.2.symm⟩
      · intro kv hkv hcon
        have hmem := mem_key_specTableFrom bs (off + 1) t p f kv hkv
        rw [hcon] at hmem
        rcases List.mem_map.mp hmem with ⟨x, hx, hxname⟩
        exact hbn x hx hxname
    | succ k =>
      have hk2 : k < bs.length := by simpa using hk
      have hne : (b.name == bs[k].name) = false :=
        beq_eq_false_iff_ne.mpr (fun hcon => hbn bs[k] (bs.getElem_mem hk2) hcon.symm)
      simp only [specTableFrom, List.getElem_cons_succ, jsObjModify, List.map_cons, hne,
        Bool.false_eq_true, if_false]
      have hoff := hoth off (by omega)
      rw [hoff.1, hoff.2.1, hoff.2.2]
      congr 1
      have harith : off + (k + 1) = off + 1 + k := by omega
      rw [harith] at hg hoth
      exact ih hnd2 (off + 1) k hk2 hg hoth

theorem any_timing_at_specTableFrom (bs : List BenchmarkDefinition) (off : ℕ)
    (t : ℕ → Option (List JSNum)) (p f : ℕ → Bool) (c : ℤ) :
    (specTableFrom off t p f bs).any
        (fun kv => kv.2.timings.isSome && ((kv.2.index : ℤ) == c)) = true ↔
      ∃ i, i < bs.length ∧ (t (off + i)).isSome = true ∧ ((off + i : ℕ) : ℤ) = c := by
  induction bs generalizing off with
  | nil => simp [specTableFrom]
  | cons b bs ih =>
    simp only [specTableFrom, List.any_cons, Bool.or_eq_true]
    constructor
    · rintro (h | h)
      · rw [Bool.and_eq_true, beq_iff_eq] at h
        refine ⟨0, by simp, ?_, ?_⟩
        · simpa using h.1
        · simpa using h.2
      · obtain ⟨i, hi, hsome, hidx⟩ := (ih (off + 1)).mp h
        refine ⟨i + 1, by simpa using hi, ?_, ?_⟩
        · have harith : off + (i + 1) = off + 1 + i := by omega
          rw [harith]
          exact hsome
        · have harith : off + (i + 1) = off + 1 + i := by omega
          rw [harith]
          exact hidx
    · rintro ⟨i, hi, hsome, hidx⟩
      cases i with
      | zero =>
        left
        rw [Bool.and_eq_true, beq_iff_eq]
        constructor
        · simpa using hsome
        · simpa using hidx
      | succ i =>
        right
        apply (ih (off + 1)).mpr
        refine ⟨i, by simpa using hi, ?_, ?_⟩
        · have harith : off + 1 + i = off + (i + 1) := by omega
          rw [harith]
          exact hsome
        · have harith : off + 1 + i = off + (i + 1) := by omega
          rw [harith]
          exact hidx

theorem specTableFrom_append (bs₁ bs₂ : List BenchmarkDefinition) (off : ℕ)
    (t : ℕ → Option (List JSNum)) (p f : ℕ → Bool) :
    specTableFrom off t p f (bs₁ ++ bs₂) =
      specTableFrom off t p f bs₁ ++ specTableFrom (off + bs₁.length) t p f bs₂ := by
  induction bs₁ generalizing off with
  | nil => simp [specTableFrom]
  | cons b bs₁ ih =>
    simp only [List.cons_append, specTableFrom, List.length_cons]
    congr 1
    have harith : off + 1 + bs₁.length = off + (bs₁.length + 1) := by omega
    rw [← harith]
    exact ih (off + 1)

theorem any_key_specTableFrom (bs : List BenchmarkDefinition) (off : ℕ)
    (t : ℕ → Option (List JSNum)) (p f : ℕ → Bool) (name : String) :
    (specTableFrom off t p f bs).any (fun kv => kv.1 == name) =
      (bs.map (fun b => b.name)).any (fun s => s == name) := by
  induction bs generalizing off with
  | nil => rfl
  | cons b bs ih =>
    simp only [specTableFrom, List.any_cons, List.map_cons, ih (off + 1)]

theorem createBenchmarkResults_eq_specTable (bs : List BenchmarkDefinition)
    (hnd : (bs.map (fun b => b.name)).Nodup) :
    createBenchmarkResults bs =
      specTable bs (fun _ => none) (fun _ => false) (fun _ => false) := by
  induction bs using List.reverseRecOn with
  | nil => rfl
  | append_singleton bs b ih =>
    have hnd2 : (bs.map (fun b => b.name)).Nodup := by
      rw [List.map_append] at hnd
      exact (List.nodup_append.mp hnd).1
    have hbn : b.name ∉ bs.map (fun b => b.name) := by
      rw [List.map_append] at hnd
      have hd := (List.nodup_append.mp hnd).2.2
      intro hcon
      exact hd hcon (by simp)
    rw [createBenchmarkResults_append, ih hnd2]
    have hany : (specTable bs (fun _ => none) (fun _ => false) (fun _ => false)).any
        (fun kv => kv.1 == b.name) = false := by
      unfold specTable
      rw [any_key_specTableFrom]
      apply Bool.eq_false_iff.mpr
      intro hcon
      obtain ⟨s, hs, hseq⟩ := List.any_eq_true.mp hcon
      rw [beq_iff_eq.mp hseq] at hs
      exact hbn hs
    unfold jsObjSet
    rw [hany]
    simp only [Bool.false_eq_true, if_false]
    unfold specTable
    rw [specTableFrom_append]
    simp [specTableFrom]

theorem createBenchmark_linear_step (bs : List BenchmarkDefinition)
    (tss : List (List JSNum)) (hnd : (bs.map (fun b => b.name)).Nodup)
    (k : ℕ) (hk : k < bs.length) (hk2 : k < tss.length)
    (m : BenchmarkMeta) (out : List String) :
    createBenchmark
      ⟨specTable bs (fun i => if i < k then tss[i]? else none)
        (fun i => decide (i < k)) (fun _ => false), m, out⟩
      bs[k].name (.ok (tss[k])) =
      ⟨specTable bs (fun i => if i < k + 1 then tss[i]? else none)
        (fun i => decide (i < k + 1)) (fun _ => false),
       { m with measured := m.measured + 1 },
       out ++ [report bs[k].name (tss[k])]⟩ := by
  have hg1 : (fun r => { r with timings := some (tss[k]) })
      (⟨0 + k, (fun i => if i < k then tss[i]? else none) (0 + k),
        (fun i => decide (i < k)) (0 + k), (fun _ : ℕ => false) (0 + k)⟩ : BenchmarkResult) =
      ⟨0 + k, (fun i => if i < k + 1 then tss[i]? else none) (0 + k),
        (fun i => decide (i < k)) (0 + k), (fun _ : ℕ => false) (0 + k)⟩ := by
    simp only [Nat.zero_add]
    simp [List.getElem?_eq_getElem hk2]
  have hoth1 : ∀ i, i ≠ 0 + k →
      (if i < k + 1 then tss[i]? else none) = (if i < k then tss[i]? else none) ∧
      decide (i < k) = decide (i < k) ∧ (false : Bool) = false := by
    intro i hi
    rw [Nat.zero_add] at hi
    refine ⟨?_, rfl, rfl⟩
    by_cases hik : i < k
    · rw [if_pos hik, if_pos (by omega)]
    · rw [if_neg hik, if_neg (by omega)]
  have h1 : jsObjModify
      (specTable bs (fun i => if i < k then tss[i]? else none)
        (fun i => decide (i < k)) (fun _ => false)) bs[k].name
      (fun r => { r with timings := some (tss[k]) }) =
      specTable bs (fun i => if i < k + 1 then tss[i]? else none)
        (fun i => decide (i < k)) (fun _ => false) :=
    jsObjModify_specTableFrom bs hnd 0 _ _ _ _ _ _ _ k hk hg1 hoth1
  have hget : jsObjGet
      (specTable bs (fun i => if i < k + 1 then tss[i]? else none)
        (fun i => decide (i < k)) (fun _ => false)) bs[k].name =
      some ⟨0 + k, if 0 + k < k + 1 then tss[0 + k]? else none,
        decide (0 + k < k), false⟩ :=
    jsObjGet_specTableFrom bs hnd 0 _ _ _ k hk
  have hgetv : jsObjGet
      (specTable bs (fun i => if i < k + 1 then tss[i]? else none)
        (fun i => decide (i < k)) (fun _ => false)) bs[k].name =
      some ⟨k, some (tss[k]), decide (k < k), false⟩ := by
    rw [hget]
    simp [List.getElem?_eq_getElem hk2]
  have hg2 : (fun r => { r with printed := true })
      (⟨0 + k, (fun i => if i < k + 1 then tss[i]? else none) (0 + k),
        (fun i => decide (i < k)) (0 + k), (fun _ : ℕ => false) (0 + k)⟩ : BenchmarkResult) =
      ⟨0 + k, (fun i => if i < k + 1 then tss[i]? else none) (0 + k),
        (fun i => decide (i < k + 1)) (0 + k), (fun _ : ℕ => false) (0 + k)⟩ := by
    simp only [Nat.zero_add]
    simp
  have hoth2 : ∀ i, i ≠ 0 + k →
      (if i < k + 1 then tss[i]? else none) = (if i < k + 1 then tss[i]? else none) ∧
      decide (i < k + 1) = decide (i < k) ∧ (false : Bool) = false := by
    intro i hi
    rw [Nat.zero_add] at hi
    refine ⟨rfl, ?_, rfl⟩
    by_cases hik : i < k
    · rw [decide_eq_true (by omega), decide_eq_true hik]
    · rw [decide_eq_false (by omega), decide_eq_false hik]
  have h2 : jsObjModify
      (specTable bs (fun i => if i < k + 1 then tss[i]? else none)
        (fun i => decide (i < k)) (fun _ => false)) bs[k].name
      (fun r => { r with printed := true }) =
      specTable bs (fun i => if i < k + 1 then tss[i]? else none)
        (fun i => decide (i < k + 1)) (fun _ => false) :=
    jsObjModify_specTableFrom bs hnd 0 _ _ _ _ _ _ _ k hk hg2 hoth2
  have hcond : (k == 0 ||
      (specTable bs (fun i => if i < k + 1 then tss[i]? else none)
        (fun i => decide (i < k)) (fun _ => false)).any
        (fun kv => kv.2.timings.isSome && ((kv.2.index : ℤ) == (k : ℤ) - 1))) = true := by
    unfold specTable
    cases k with
    | zero => rfl
    | succ k' =>
      have hany := (any_timing_at_specTableFrom bs 0
        (fun i => if i < k' + 1 + 1 then tss[i]? else none)
        (fun i => decide (i < k' + 1)) (fun _ => false)
        (((k' + 1 : ℕ) : ℤ) - 1)).mpr
      have hwit : ∃ i, i < bs.length ∧
          ((fun i => if i < k' + 1 + 1 then tss[i]? else none) (0 + i)).isSome = true ∧
          ((0 + i : ℕ) : ℤ) = ((k' + 1 : ℕ) : ℤ) - 1 := by
        refine ⟨k', by omega, ?_, by push_cast; omega⟩
        rw [Nat.zero_add]
        simp only [if_pos (show k' < k' + 1 + 1 by omega)]
        simp [List.getElem?_eq_getElem (show k' < tss.length by omega)]
      rw [hany hwit, Bool.or_true]
  simp only [createBenchmark]
  rw [h1, hgetv]
  simp only [Option.map_some', Option.getD_some]
  rw [hcond]
  rw [if_pos rfl]
  rw [h2]

theorem mem_specTableFrom (bs : List BenchmarkDefinition) (off : ℕ)
    (t : ℕ → Option (List JSNum)) (p f : ℕ → Bool) (kv : String × BenchmarkResult)
    (h : kv ∈ specTableFrom off t p f bs) :
    ∃ i, ∃ hi : i < bs.length,
      kv = (bs[i].name, ⟨off + i, t (off + i), p (off + i), f (off + i)⟩) := by
  induction bs generalizing off with
  | nil => cases h
  | cons b bs ih =>
    simp only [specTableFrom, List.mem_cons] at h
    rcases h with h | h
    · exact ⟨0, by simp, by simpa using h⟩
    · obtain ⟨i, hi, heq⟩ := ih (off + 1) h
      refine ⟨i + 1, by simpa using hi, ?_⟩
      rw [heq]
      have harith : off + 1 + i = off + (i + 1) := by omega
      rw [harith]
      simp

theorem logPendingResults_printed (bs : List BenchmarkDefinition) (off : ℕ)
    (t : ℕ → Option (List JSNum)) (p f : ℕ → Bool)
    (hp : ∀ i, off ≤ i → i < off + bs.length → p i = true) :
    logPendingResults (specTableFrom off t p f bs) = [] := by
  unfold logPendingResults
  have hfil : List.filter (fun kv => kv.2.timings.isSome && !kv.2.printed)
      (specTableFrom off t p f bs) = [] := by
    rw [List.filter_eq_nil_iff]
    intro kv hkv
    obtain ⟨i, hi, heq⟩ := mem_specTableFrom bs off t p f kv hkv
    rw [heq]
    simp [hp (off + i) (by omega) (by omega)]
  rw [hfil]
  rfl

theorem takeWhile_all_ok {α : Type} (p : α → Bool) :
    ∀ l : List α, (∀ x ∈ l, p x = true) → l.takeWhile p = l
  | [], _ => rfl
  | x :: l, h => by
    rw [List.takeWhile_cons_of_pos (h x (by simp))]
    rw [takeWhile_all_ok p l (fun y hy => h y (by simp [hy]))]

theorem dropWhile_all_ok {α : Type} (p : α → Bool) :
    ∀ l : List α, (∀ x ∈ l, p x = true) → l.dropWhile p = []
  | [], _ => rfl
  | x :: l, h => by
    rw [List.dropWhile_cons_of_pos (h x (by simp))]
    exact dropWhile_all_ok p l (fun y hy => h y (by simp [hy]))

theorem runLinear_fold (bs : List BenchmarkDefinition) (tss : List (List JSNum))
    (hnd : (bs.map (fun b => b.name)).Nodup) (hlen : tss.length = bs.length) :
    ∀ (fuel k : ℕ), fuel = bs.length - k → k ≤ bs.length →
    ∀ (m : BenchmarkMeta) (out : List String),
    List.foldl (fun st ev => createBenchmark st ev.1 ev.2)
      ⟨specTable bs (fun i => if i < k then tss[i]? else none)
        (fun i => decide (i < k)) (fun _ => false), m, out⟩
      (((bs.zip tss).drop k).map (fun q => (q.1.name, RunnerOutcome.ok q.2))) =
      ⟨specTable bs (fun i => if i < bs.length then tss[i]? else none)
        (fun i => decide (i < bs.length)) (fun _ => false),
       { m with measured := m.measured + (bs.length - k) },
       out ++ ((bs.zip tss).drop k).map (fun q => report q.1.name q.2)⟩ := by
  intro fuel
  induction fuel with
  | zero =>
    intro k hfuel hk m out
    have hkn : k = bs.length := by omega
    subst hkn
    have hdrop : (bs.zip tss).drop bs.length = [] := by
      apply List.drop_eq_nil_of_le
      rw [List.length_zip]
      omega
    rw [hdrop]
    simp only [List.map_nil, List.foldl_nil, List.append_nil]
    cases m
    simp
  | succ fuel ih =>
    intro k hfuel hk m out
    have hkb : k < bs.length := by omega
    have hkt : k < tss.length := by omega
    have hkzip : k < (bs.zip tss).length := by
      rw [List.length_zip]
      omega
    rw [List.drop_eq_getElem_cons hkzip, List.getElem_zip]
    simp only [List.map_cons, List.foldl_cons]
    rw [createBenchmark_linear_step bs tss hnd k hkb hkt m out]
    rw [ih (k + 1) (by omega) (by omega)
      { m with measured := m.measured + 1 } (out ++ [report bs[k].name tss[k]])]
    congr 1
    · congr 1
      dsimp only
      omega
    · rw [List.append_assoc]
      rfl

/-- Claim C1 (amended): for every set of selected benchmarks with
distinct names whose Runner tasks complete in registration order,
`runBenchmarks` emits the per-benchmark report lines in registration
order, each immediately at its benchmark's completion, and the
post-join pending sweep prints nothing further.  (For other
completion orders this fails: the incremental check compares against
the predecessor's recorded timings, not against what was printed, and
no successor chain is retried, so lines can be emitted out of
registration order — see the counterexample.) -/
theorem c1_ordered_when_completed_in_order (bs : List BenchmarkDefinition)
    (tss : List (List JSNum)) (hnd : (bs.map (fun b => b.name)).Nodup)
    (hlen : tss.length = bs.length) :
    runBenchmarksModel bs
        ((bs.zip tss).map (fun q => (q.1.name, RunnerOutcome.ok q.2))) =
      (bs.zip tss).map (fun q => report q.1.name q.2) := by
  have hallok : ∀ ev ∈ (bs.zip tss).map (fun q => (q.1.name, RunnerOutcome.ok q.2)),
      ev.2.isOk = true := by
    intro ev hev
    obtain ⟨q, _, rfl⟩ := List.mem_map.mp hev
    rfl
  simp only [runBenchmarksModel]
  rw [takeWhile_all_ok _ _ hallok, dropWhile_all_ok _ _ hallok]
  rw [createBenchmarkResults_eq_specTable bs hnd]
  have hzero : specTable bs (fun _ => none) (fun _ => false) (fun _ => false) =
      specTable bs (fun i => if i < 0 then tss[i]? else none)
        (fun i => decide (i < 0)) (fun _ => false) := by
    unfold specTable
    apply specTableFrom_congr
    intro i h1 h2
    simp
  rw [hzero]
  have hfold := runLinear_fold bs tss hnd hlen bs.length 0 (by omega) (by omega)
    ⟨0, 0, false⟩ []
  rw [List.drop_zero] at hfold
  rw [hfold]
  dsimp only
  unfold specTable
  rw [logPendingResults_printed bs 0 _ _ _
    (fun i h1 h2 => decide_eq_true (by omega))]
  simp

/-- Claim C1, counterexample: with three benchmarks `a`, `b`, `c`
registered in that order and completion order `b`, `c`, `a`, the
model emits the line of `c` (index 2) before the lines of `a` and
`b`: at the completion of `c` its predecessor `b` already has timings
recorded, so `c` prints although `a` and `b` are still unprinted, and
`b` is only printed by the post-join sweep — the trace is not in
registration order, and after `a` prints, its successor `b` (whose
timings were already recorded) is not printed immediately. -/
theorem c1_counterexample :
    runBenchmarksModel c1Bs c1Schedule =
      ["benchmark c ... 3ms", "benchmark a ... 1ms", "benchmark b ... 2ms"] ∧
    runBenchmarksModel c1Bs c1Schedule ≠
      ["benchmark a ... 1ms", "benchmark b ... 2ms", "benchmark c ... 3ms"] := by
  refine ⟨by decide, by decide⟩

/-- Claim C1, witness for the amended theorem on two concrete
benchmarks completing in registration order. -/
theorem c1_witness :
    runBenchmarksModel c1WitBs
        ((c1WitBs.zip c1WitTss).map (fun q => (q.1.name, RunnerOutcome.ok q.2))) =
      (c1WitBs.zip c1WitTss).map (fun q => report q.1.name q.2) :=
  c1_ordered_when_completed_in_order c1WitBs c1WitTss (by decide) (by decide)

theorem logFailingResults_all_unresolved (bs : List BenchmarkDefinition) :
    ∀ (off : ℕ) (fl : ℕ → Bool),
    (∀ i, off ≤ i → i < off + bs.length → fl i = false) →
    logFailingResults
        (specTableFrom off (fun _ => none) (fun _ => false) fl bs) =
      bs.map (fun b => unresolve b.name) := by
  induction bs with
  | nil => intro off fl hfl; rfl
  | cons b bs ih =>
    intro off fl hfl
    have ih2 := ih (off + 1) fl (fun i h1 h2 => hfl i (by omega) (by simp at h2 ⊢; omega))
    simp only [logFailingResults] at ih2 ⊢
    simp only [specTableFrom, List.map_cons]
    rw [ih2]
    simp [hfl off (by omega) (by simp)]

theorem logFailingResults_one_failed (bs : List BenchmarkDefinition) :
    ∀ (off j : ℕ) (hj : j < bs.length),
    (bs.map (fun b => b.name)).Nodup →
    logFailingResults
        (specTableFrom off (fun _ => none) (fun _ => false)
          (fun i => decide (i = off + j)) bs) =
      bs.map (fun b => if b.name = bs[j].name then fail b.name
        else unresolve b.name) := by
  induction bs with
  | nil => intro off j hj; cases hj
  | cons b bs ih =>
    intro off j hj hnd
    obtain ⟨hbn, hnd2⟩ := nodup_head_names b bs hnd
    cases j with
    | zero =>
      have htail := logFailingResults_all_unresolved bs (off + 1)
        (fun i => decide (i = off + 0))
        (fun i h1 h2 => decide_eq_false (by omega))
      simp only [logFailingResults] at htail ⊢
      simp only [specTableFrom, List.map_cons, List.getElem_cons_zero]
      rw [htail]
      congr 1
      · simp
      · symm
        apply List.map_congr_left
        intro x hx
        rw [if_neg (hbn x hx)]
    | succ k =>
      have hk : k < bs.length := by simpa using hj
      have ih2 := ih (off + 1) k hk hnd2
      simp only [logFailingResults] at ih2 ⊢
      simp only [specTableFrom, List.map_cons, List.getElem_cons_succ]
      congr 1
      · have hne : ¬b.name = bs[k].name :=
          fun hcon => hbn bs[k] (bs.getElem_mem hk) hcon.symm
        have hfl : decide (off = off + (k + 1)) = false := decide_eq_false (by omega)
        simp [hfl, hne]
      · have harith : off + (k + 1) = off + 1 + k := by omega
        rw [harith]
        exact ih2

/-- Claim C3 (amended): the Executor's join short-circuits at the
first failure instead of awaiting every Runner task to settlement:
when the first settled event is a failure, the failure sweep runs at
once with only the results recorded so far, printing a failure line
for the failed benchmark and the defensive "unresolved" line — not a
normal report line — for every other selected benchmark, even ones
whose Runners are still working; the remaining Runner continuations
execute only after the sweep (they are not cancelled), so their
lines, if any, appear after it. -/
theorem c3_sweep_at_first_failure (bs : List BenchmarkDefinition)
    (hnd : (bs.map (fun b => b.name)).Nodup) (j : ℕ) (hj : j < bs.length)
    (rest : List (String × RunnerOutcome)) :
    (runBenchmarksModel bs ((bs[j].name, RunnerOutcome.err) :: rest)).take bs.length =
      bs.map (fun b => if b.name = bs[j].name then fail b.name
        else unresolve b.name) := by
  simp only [runBenchmarksModel]
  rw [List.takeWhile_cons_of_neg (by simp [RunnerOutcome.isOk])]
  rw [List.dropWhile_cons_of_neg (by simp [RunnerOutcome.isOk])]
  simp only [List.foldl_nil, createBenchmark]
  rw [createBenchmarkResults_eq_specTable bs hnd]
  have hg : (fun r => { r with failed := true })
      (⟨0 + j, (fun _ : ℕ => (none : Option (List JSNum))) (0 + j),
        (fun _ : ℕ => false) (0 + j), (fun _ : ℕ => false) (0 + j)⟩ : BenchmarkResult) =
      ⟨0 + j, (fun _ : ℕ => (none : Option (List JSNum))) (0 + j),
        (fun _ : ℕ => false) (0 + j), (fun i => decide (i = 0 + j)) (0 + j)⟩ := by
    simp
  have hoth : ∀ i, i ≠ 0 + j →
      (none : Option (List JSNum)) = none ∧ (false : Bool) = false ∧
      decide (i = 0 + j) = false := by
    intro i hi
    exact ⟨rfl, rfl, decide_eq_false hi⟩
  have h1 : jsObjModify
      (specTable bs (fun _ => none) (fun _ => false) (fun _ => false)) bs[j].name
      (fun r => { r with failed := true }) =
      specTable bs (fun _ => none) (fun _ => false) (fun i => decide (i = 0 + j)) :=
    jsObjModify_specTableFrom bs hnd 0 _ _ _ _ _ _ _ j hj hg hoth
  rw [h1]
  unfold specTable
  rw [logFailingResults_one_failed bs 0 j hj hnd]
  simp only [List.nil_append]
  rw [show bs.length = (bs.map (fun b => if b.name = bs[j].name then fail b.name
    else unresolve b.name)).length from (by simp)]
  exact List.take_left _ _

/-- Claim C3, counterexample: with `a` failing before `b` settles,
`Promise.all` rejects at once and the failure sweep runs without
awaiting `b`: the trace is exactly the failure line for `a` and an
"unresolved" line for `b` — the non-failed benchmark `b` never
receives its normal report line, so a failing benchmark does prevent
another selected benchmark from being reported normally. -/
theorem c3_counterexample :
    runBenchmarksModel c3Bs c3Schedule =
      ["benchmark a ... failed", "benchmark b ... unresolved"] ∧
    "benchmark b ... 2ms" ∉ runBenchmarksModel c3Bs c3Schedule := by
  refine ⟨by decide, by decide⟩

/-- Claim C3, witness for the amended theorem at two concrete
benchmarks with the failure settling first. -/
theorem c3_witness :
    (runBenchmarksModel c3WitBs
        [("x", RunnerOutcome.err), ("y", RunnerOutcome.ok [.num 2])]).take
        c3WitBs.length =
      c3WitBs.map (fun b => if b.name = "x" then fail b.name
        else unresolve b.name) :=
  c3_sweep_at_first_failure c3WitBs (by decide) 0 (by decide)
    [("y", RunnerOutcome.ok [.num 2])]

end Benching
